import Mathlib

/-!
Verification model of `calibre/ebooks/docx/tables.py`.

The file embeds, as executable Lean definitions, the property readers, the
style records with their cascade operations, and the table assembler of the
source file, and proves the specified properties about them.

Modelling conventions:
* XML elements are represented by the data the source actually consumes: an
  attribute is an `Option String` (`none` = attribute absent, which `get`
  reports as Python `None`), and an XPath child query is a `List` of the
  matching children in document order.
* The distinguished "inherited" marker `inherit` imported from
  `block_styles.py` is the constructor `PVal.inherit` of the property-value
  type.
* Python `int(s)` / `int(s, 16)` conversions are modelled by `parsePyInt` /
  `parsePyHex`; a raised `ValueError`/`TypeError` is the value `none`.
-/

/-- Property values stored on style records.  `inherit` is the sentinel
imported from `block_styles.py`; the other constructors cover the value
shapes the readers in `tables.py` produce (strings, integers, the
`(rule, value)` pair of `read_height`). -/
inductive PVal where
  | inherit
  | s (v : String)
  | i (v : Int)
  | pair (rule : String) (v : Option String)
  deriving DecidableEq, Repr

/-- Whitespace trim on both ends of a character list, modelling the strip
Python `int()` applies to its string argument. -/
def trimChars (cs : List Char) : List Char :=
  ((cs.dropWhile Char.isWhitespace).reverse.dropWhile Char.isWhitespace).reverse

/-- Decimal digit value of a character, `none` when it is not a digit. -/
def decDigitVal (c : Char) : Option Nat :=
  if '0' ≤ c ∧ c ≤ '9' then some (c.toNat - '0'.toNat) else none

/-- Hexadecimal digit value of a character, `none` when it is not one. -/
def hexDigitVal (c : Char) : Option Nat :=
  if '0' ≤ c ∧ c ≤ '9' then some (c.toNat - '0'.toNat)
  else if 'a' ≤ c ∧ c ≤ 'f' then some (c.toNat - 'a'.toNat + 10)
  else if 'A' ≤ c ∧ c ≤ 'F' then some (c.toNat - 'A'.toNat + 10)
  else none

/-- Accumulate digit values in the given base; any non-digit character makes
the whole conversion fail. -/
def digitsVal (base : Nat) (dv : Char → Option Nat) (cs : List Char) : Option Nat :=
  cs.foldl (fun acc c =>
    match acc, dv c with
    | some a, some d => some (a * base + d)
    | _, _ => none) (some 0)

/-- Digit-string body of a decimal `int()` conversion: at least one decimal
digit and nothing else. -/
def decCore (cs : List Char) : Option Nat :=
  match cs with
  | [] => none
  | _ => digitsVal 10 decDigitVal cs

/-- Digit-string body of an `int(x, 16)` conversion: an optional `0x`/`0X`
prefix followed by at least one hexadecimal digit. -/
def hexCore (cs : List Char) : Option Nat :=
  match cs with
  | '0' :: x :: rest =>
    if x = 'x' ∨ x = 'X' then
      match rest with
      | [] => none
      | _ => digitsVal 16 hexDigitVal rest
    else digitsVal 16 hexDigitVal cs
  | [] => none
  | _ => digitsVal 16 hexDigitVal cs

/-- Shared sign handling of Python `int()`: strip whitespace, allow one
leading `+` or `-`, delegate the rest to the digit-body parser. -/
def parseSigned (core : List Char → Option Nat) (s : String) : Option Int :=
  match trimChars s.toList with
  | [] => none
  | c :: rest =>
    if c = '-' then (core rest).map (fun n => -(n : Int))
    else if c = '+' then (core rest).map (fun n => (n : Int))
    else (core (c :: rest)).map (fun n => (n : Int))

/-- Model of Python `int(s)`: `some` the converted integer, `none` when the
conversion raises `ValueError` (and `Option.bind` of an absent attribute
models the `TypeError` raised on `int(None)`). -/
def parsePyInt (s : String) : Option Int :=
  parseSigned decCore s

/-- Model of Python `int(s, 16)` used by `read_look`. -/
def parsePyHex (s : String) : Option Int :=
  parseSigned hexCore s

/-- Digit character for a value below ten. -/
def digitChar (n : Nat) : Char :=
  match n with
  | 0 => '0' | 1 => '1' | 2 => '2' | 3 => '3' | 4 => '4'
  | 5 => '5' | 6 => '6' | 7 => '7' | 8 => '8' | _ => '9'

/-- Floor of the base-10 logarithm of a positive natural number, computed
with explicit fuel so that it evaluates inside the kernel. -/
def natLog10Aux : Nat → Nat → Nat
  | 0, _ => 0
  | fuel + 1, n => if n < 10 then 0 else natLog10Aux fuel (n / 10) + 1

/-- Floor of the base-10 logarithm of `n` (0 for `n < 10`). -/
def natLog10 (n : Nat) : Nat :=
  natLog10Aux n n

/-- Decimal digits of a natural number, most significant first. -/
def natToDigitsAux : Nat → Nat → List Char
  | 0, _ => []
  | fuel + 1, n => if n < 10 then [digitChar n] else natToDigitsAux fuel (n / 10) ++ [digitChar (n % 10)]

/-- Decimal digit characters of a natural number. -/
def natToDigits (n : Nat) : List Char :=
  natToDigitsAux (n + 1) n

/-- Remove trailing `'0'` characters (the trailing-zero stripping of the
C `%g` conversion). -/
def stripZeros (l : List Char) : List Char :=
  (l.reverse.dropWhile (fun c => c = '0')).reverse

/-- Round the exact ratio `a / b` (with `b > 0`) to the nearest natural
number, ties to even — the rounding `%g` applies to the printed digits. -/
def roundHalfEvenN (a b : Nat) : Nat :=
  let q := a / b
  let r := a % b
  if 2 * r < b then q
  else if b < 2 * r then q + 1
  else if q % 2 = 0 then q else q + 1

/-- Decimal exponent `e` of the positive exact ratio `n / den`
(`10 ^ e ≤ n / den < 10 ^ (e + 1)`). -/
def decExp10 (n den : Nat) : Int :=
  if den ≤ n then (natLog10 (n / den) : Int)
  else
    let k := natLog10 (den / n)
    if den ≤ n * 10 ^ k then -(k : Int) else -(k : Int) - 1

/-- First three significant decimal digits of the positive exact ratio
`n / den`, as a number in `[100, 999]` paired with the decimal exponent of
its leading digit (the exponent grows by one when rounding carries over,
e.g. 999.6 → (100, 3)). -/
def sig3 (n den : Nat) : Nat × Int :=
  let e := decExp10 n den
  let v :=
    if 0 ≤ 2 - e then roundHalfEvenN (n * 10 ^ (2 - e).toNat) den
    else roundHalfEvenN n (den * 10 ^ (e - 2).toNat)
  if 1000 ≤ v then (100, e + 1) else (v, e)

/-- Render three significant digits `m ∈ [100, 999]` with leading-digit
exponent `e` the way `%.3g` does: fixed notation for `-4 ≤ e < 3` with
trailing zeros stripped, otherwise scientific notation with a
two-digit-minimum exponent. -/
def fmt3gRender (m : Nat) (e : Int) : String :=
  let d1 := digitChar (m / 100)
  let d2 := digitChar (m / 10 % 10)
  let d3 := digitChar (m % 10)
  if -4 ≤ e ∧ e < 3 then
    if e = 2 then String.mk [d1, d2, d3]
    else if e = 1 then
      let frac := stripZeros [d3]
      String.mk ([d1, d2] ++ if frac.isEmpty then [] else '.' :: frac)
    else if e = 0 then
      let frac := stripZeros [d2, d3]
      String.mk (d1 :: if frac.isEmpty then [] else '.' :: frac)
    else
      let frac := stripZeros [d1, d2, d3]
      String.mk ('0' :: '.' :: (List.replicate (-e - 1).toNat '0' ++ frac))
  else
    let frac := stripZeros [d2, d3]
    let mant := d1 :: (if frac.isEmpty then [] else '.' :: frac)
    let ed := natToDigits e.natAbs
    let ed2 := if ed.length < 2 then '0' :: ed else ed
    String.mk (mant ++ 'e' :: (if e < 0 then '-' else '+') :: ed2)

/-- Model of the CPython conversion `%.3g` applied to `num / den` on the exact
rational `num / den` (`den > 0`): three significant digits, trailing zeros
stripped, scientific notation outside `[1e-4, 1e3)`.  Ties at the third
significant digit are rounded half-to-even on the exact ratio; the source
formats the IEEE double `num / den`, whose representation error can tilt an
exact tie, which is below the resolution of the properties proved here. -/
def fmt3g (num : Int) (den : Nat) : String :=
  if num = 0 then "0"
  else if num < 0 then "-" ++ (fun p => fmt3gRender p.1 p.2) (sig3 num.natAbs den)
  else (fun p => fmt3gRender p.1 p.2) (sig3 num.natAbs den)

/-- A width element (`w:tblW`, `w:tcW`, `w:tblCellSpacing`, a padding edge,
…): its `w:w` and `w:type` attributes. -/
structure WidthNode where
  w : Option String
  type : Option String
  deriving Repr

/-- Embeds `_read_width` (tables.py lines 18–33): a missing or non-numeric
`w:w` counts as 0, `w:type` defaults to `auto`, and the four recognised unit
types map to `"0"`, `"auto"`, twentieths of a point (`pt`) and fiftieths of
a percent (`%`); any other unit type leaves the result `inherit`. -/
def _read_width (elem : WidthNode) : PVal :=
  let w : Int :=
    match elem.w.bind parsePyInt with
    | some n => n
    | none => 0
  let typ := elem.type.getD "auto"
  if typ = "nil" then PVal.s "0"
  else if typ = "auto" then PVal.s "auto"
  else if typ = "dxa" then PVal.s (fmt3g w 20 ++ "pt")
  else if typ = "pct" then PVal.s (fmt3g w 50 ++ "%")
  else PVal.inherit

/-- Embeds `read_width` (tables.py lines 35–39): the destination `width`
starts at `inherit` and each `w:tblW` child overwrites it, so the last child
wins and an absent child leaves `inherit`. -/
def read_width (tblWs : List WidthNode) : PVal :=
  tblWs.foldl (fun _ e => _read_width e) PVal.inherit

/-- A `w:tblCellMar` / `w:tcMar` padding container: the lists of its
`w:left`, `w:top`, `w:right`, `w:bottom` edge children. -/
structure MarNode where
  left : List WidthNode
  top : List WidthNode
  right : List WidthNode
  bottom : List WidthNode

/-- The four `cell_padding_*` properties `read_padding` stores. -/
structure PaddingDest where
  cell_padding_left : PVal
  cell_padding_top : PVal
  cell_padding_right : PVal
  cell_padding_bottom : PVal
  deriving DecidableEq, Repr

/-- Embeds `read_padding` (tables.py lines 47–55) as it actually executes.
The loop body runs `locals()[x] = _read_width(edge)`; in CPython an
assignment into the dictionary returned by `locals()` inside a function does
not rebind the function locals, and the final loop reads a fresh `locals()`
snapshot, so the widths computed from the edge children are discarded and
every `cell_padding_*` property is stored as the `inherit` the four locals
were initialised with.  The discarded per-edge computation is kept visible
here as the unused `let`. -/
def read_padding (mars : List MarNode) : PaddingDest :=
  let _ := mars.map (fun mar =>
    (mar.left.map _read_width, mar.top.map _read_width,
     mar.right.map _read_width, mar.bottom.map _read_width))
  ⟨PVal.inherit, PVal.inherit, PVal.inherit, PVal.inherit⟩

/-- Embeds `read_justification` (tables.py lines 57–70).  The input is the
list of `w:val` attribute values of the `w:jc[@w:val]` children; the result
is the `(margin_left, margin_right)` pair stored on the destination. -/
def read_justification (jcs : List String) : PVal × PVal :=
  jcs.foldl (fun lr val =>
    if val = "" then lr
    else if val = "left" then (lr.1, PVal.s "auto")
    else if val = "right" then (PVal.s "auto", lr.2)
    else if val = "center" then (PVal.s "auto", PVal.s "auto")
    else lr) (PVal.inherit, PVal.inherit)

/-- The try/except idiom `ans = int(get(y, w:val))` with `TypeError` and
`ValueError` caught by a `continue`, shared by `read_band_size`, `read_look` and
`read_col_span`: convert the attribute with the given parser and keep the
running value on failure. -/
def tryParseStep {α : Type} (pr : String → Option Int) (f : Int → α)
    (ans : α) (v : Option String) : α :=
  match v.bind pr with
  | some n => f n
  | none => ans

/-- Embeds the per-element loop of `read_band_size` (tables.py lines
122–130): start from the concrete default 1 and let each successfully
parsed `w:val` overwrite it; a parse failure executes `continue`. -/
def readBandLoop (vals : List (Option String)) : Int :=
  vals.foldl (tryParseStep parsePyInt (fun n => n)) 1

/-- Embeds `read_band_size` (tables.py lines 122–130): the `w:val`
attributes of the `w:tblStyleColBandSize` children give `col_band_size`,
those of the `w:tblStyleRowBandSize` children give `row_band_size`. -/
def read_band_size (colNodes rowNodes : List (Option String)) : Int × Int :=
  (readBandLoop colNodes, readBandLoop rowNodes)

/-- Embeds `read_look` (tables.py lines 132–139): the `w:val` attributes of
the `w:tblLook` children, parsed as hexadecimal, overwrite the concrete
default 0; a parse failure executes `continue`. -/
def read_look (looks : List (Option String)) : Int :=
  looks.foldl (tryParseStep parsePyHex (fun n => n)) 0

/-- Embeds `read_col_span` (tables.py lines 106–113): the `w:val`
attributes of the `w:gridSpan` children overwrite the `inherit` start
value; a parse failure executes `continue` and leaves it unchanged. -/
def read_col_span (gss : List (Option String)) : PVal :=
  gss.foldl (tryParseStep parsePyInt PVal.i) PVal.inherit

/-- A placeholder for an XML element whose contents a constructor receives
but never reads (the populated branch of `RowStyle.__init__`). -/
structure XmlNode where
  id : Nat
  deriving DecidableEq, Repr

/-- The six border edges of `border_edges` (tables.py line 84). -/
def border_edges : List String :=
  ["left", "top", "right", "bottom", "insideH", "insideV"]

/-- Modelled from the spec: the per-edge border sub-property names
(`border_props` is imported from `block_styles.py`, which is outside the
given sources; the spec lists the sub-properties style, width, color and
padding per edge). -/
def border_props (edge : String) : List String :=
  ["padding_" ++ edge, "border_" ++ edge ++ "_width",
   "border_" ++ edge ++ "_style", "border_" ++ edge ++ "_color"]

/-- The declared property list of `RowStyle` (tables.py line 145). -/
def RowStyle.all_properties : List String :=
  ["height", "cantSplit", "hidden", "spacing"]

/-- A `RowStyle` record.  Python object attributes are a partial map:
`attrs p = none` means the attribute was never assigned (reading it raises
`AttributeError`), `attrs p = some v` means it holds `v`, where `v` may be
the `inherit` sentinel. -/
structure RowStyle where
  attrs : String → Option PVal

/-- Embeds `RowStyle.__init__` (tables.py lines 147–152).  With no source
node every declared property is assigned the `inherit` sentinel; with a
source node the `else` branch is `pass`, so no attribute is assigned at
all.  The parameter keeps the misleading source name `tcPr`. -/
def RowStyle.init (tcPr : Option XmlNode) : RowStyle :=
  match tcPr with
  | none => ⟨fun p => if p ∈ RowStyle.all_properties then some PVal.inherit else none⟩
  | some _ => ⟨fun _ => none⟩

/-- The declared property list of `TableStyle` (tables.py lines 171–175). -/
def TableStyle.all_properties : List String :=
  ["width", "cell_padding_left", "cell_padding_right", "cell_padding_top",
   "cell_padding_bottom", "margin_left", "margin_right", "background_color",
   "spacing", "indent", "overrides", "col_band_size", "row_band_size", "look"]
  ++ border_edges.flatMap border_props

/-- A `TableStyle` record, as its cascade operations observe it: a total
assignment of a property value to every attribute name (`update` and
`resolve_based_on` read and write exactly the names in `all_properties`). -/
def TableStyle : Type := String → PVal

/-- Embeds `TableStyle.__init__(tblPr=None)` (tables.py lines 178–180):
every property, `overrides` included, is the `inherit` sentinel. -/
def TableStyle.initNone : TableStyle := fun _ => PVal.inherit

/-- Embeds `TableStyle.update` (tables.py lines 203–207): for every
property in `all_properties`, the value from `other` is copied into `self`
unless it is the `inherit` sentinel; attributes outside the list are left
alone. -/
def TableStyle.update (self other : TableStyle) : TableStyle :=
  fun p =>
    if p ∈ TableStyle.all_properties then
      match other p with
      | PVal.inherit => self p
      | v => v
    else self p

/-- Embeds `TableStyle.resolve_based_on` (tables.py lines 209–213): every
property of `self` still equal to the `inherit` sentinel receives the
value of the parent. -/
def TableStyle.resolve_based_on (self parent : TableStyle) : TableStyle :=
  fun p =>
    if p ∈ TableStyle.all_properties then
      match self p with
      | PVal.inherit => parent p
      | v => v
    else self p

/-- A node of the produced XHTML tree: the already-converted block elements
(identified by a numeric id) and the `TABLE` / `TR` / `TD` containers
`apply_markup` builds.  The whitespace tail strings the source attaches for
output indentation carry no structure and are not modelled. -/
inductive HtmlNode where
  | block (id : Nat)
  | table (children : List HtmlNode)
  | tr (children : List HtmlNode)
  | td (children : List HtmlNode)

/-- A raw `w:tbl` node as `apply_markup` traverses it: for each `w:tr`
child, for each of its `w:tc` children, the ids of its `w:p` children, all
in document order. -/
structure WTbl where
  rows : List (List (List Nat))

/-- Does this output node equal the block with id `i`? -/
def isBlockOf (i : Nat) : HtmlNode → Bool
  | HtmlNode.block j => j == i
  | _ => false

/-- Is this output node a `TABLE` container? -/
def isTable : HtmlNode → Bool
  | HtmlNode.table _ => true
  | _ => false

/-- The ids of the converted blocks `apply_markup` moves into the new table:
`rmap p` for every `w:p` of every `w:tc` of every `w:tr`, where `rmap` is
the reverse of `object_map` (tables.py line 228). -/
def movedBlocks (rmap : Nat → Nat) (tbl : WTbl) : List Nat :=
  tbl.rows.flatMap (fun row => row.flatMap (fun tc => tc.map rmap))

/-- Embeds the element construction of `apply_markup` (tables.py lines
233–250): a `TABLE` built by appending, for each `w:tr`, a `TR` built by
appending, for each `w:tc`, a `TD` into which the converted block of each
cell paragraph is appended. -/
def makeTable (rmap : Nat → Nat) (tbl : WTbl) : HtmlNode :=
  HtmlNode.table (tbl.rows.foldl (fun acc row =>
    acc ++ [HtmlNode.tr (row.foldl (fun acc2 tc =>
      acc2 ++ [HtmlNode.td (tc.foldl (fun acc3 p =>
        acc3 ++ [HtmlNode.block (rmap p)]) [])]) [])]) [])

/-- Keep predicate for the host children after a table is assembled: the
blocks moved into the new table leave their old parent (appending an
element that already has a parent re-parents it in lxml); containers stay. -/
def keepAfterMove (rmap : Nat → Nat) (tbl : WTbl) : HtmlNode → Bool
  | HtmlNode.block j => !((movedBlocks rmap tbl).contains j)
  | _ => true

/-- Embeds one iteration of the `apply_markup` loop (tables.py lines
229–250) as its effect on the child list of the host parent: with no
contributed blocks the iteration is skipped (`continue`); otherwise the new
table is inserted at the index of the converted element of the first
contributed block, and the blocks moved into the table leave the host child list. -/
def apply_markup_step (rmap : Nat → Nat) (children : List HtmlNode)
    (tbl : WTbl) (blocks : List Nat) : List HtmlNode :=
  match blocks with
  | [] => children
  | b :: _ =>
    let idx := children.findIdx (isBlockOf (rmap b))
    (children.insertIdx idx (makeTable rmap tbl)).filter (keepAfterMove rmap tbl)

/-- The registration state of `Tables` (tables.py lines 216–225): the
ordered mapping from raw table node (by id) to its contributed block list,
plus the key of the most recently registered table — `current_table` in the
source is the very list object stored at that key, so it is modelled by the
key; `none` models the attribute not existing before the first `register`. -/
structure Tables where
  tables : List (Nat × List Nat)
  current : Option Nat

/-- Embeds `Tables.__init__` (tables.py lines 218–219). -/
def Tables.init : Tables :=
  ⟨[], none⟩

/-- Embeds `Tables.register` (tables.py lines 221–222): assignment into the
`OrderedDict` replaces the value of an existing key in place (the key keeps
its position) and appends a new key at the end; the fresh empty list becomes
the current table. -/
def Tables.register (st : Tables) (tbl : Nat) : Tables :=
  { tables :=
      if st.tables.any (fun kv => kv.1 == tbl) then
        st.tables.map (fun kv => if kv.1 = tbl then (tbl, ([] : List Nat)) else kv)
      else st.tables ++ [(tbl, [])],
    current := some tbl }

/-- Embeds `Tables.add` (tables.py lines 224–225): append to the list of
the current table.  Before any `register` the source has no `current_table`
attribute and would raise `AttributeError`; that unreachable state is
modelled as a no-op. -/
def Tables.add (st : Tables) (p : Nat) : Tables :=
  match st.current with
  | none => st
  | some k =>
    { st with tables := st.tables.map (fun kv => if kv.1 = k then (kv.1, kv.2 ++ [p]) else kv) }

/-- The registration-order key list of the state (the iteration order of
`apply_markup`). -/
def Tables.keys (st : Tables) : List Nat :=
  st.tables.map Prod.fst

/-- The contributed block list of a registered table, `none` when the table
was never registered. -/
def Tables.blocksOf (st : Tables) (k : Nat) : Option (List Nat) :=
  (st.tables.find? (fun kv => kv.1 == k)).map Prod.snd

/-- Embeds `Tables.apply_markup` (tables.py lines 227–250) on a host parent
child list: fold the per-table step over the registered tables in
registration order.  (In the source each table looks up its own parent; the
claims proved below are about the per-table step.) -/
def Tables.apply_markup (st : Tables) (rmap : Nat → Nat) (wtbl : Nat → WTbl)
    (children : List HtmlNode) : List HtmlNode :=
  st.tables.foldl (fun cs kv => apply_markup_step rmap cs (wtbl kv.1) kv.2) children

/-! ## Helper lemmas -/

/-- A fold of the try/except-`continue` idiom over values that all fail to
parse keeps its starting value. -/
theorem foldl_tryParseStep {α : Type} (pr : String → Option Int) (f : Int → α)
    (l : List (Option String)) (a : α) (h : ∀ v ∈ l, v.bind pr = none) :
    l.foldl (tryParseStep pr f) a = a := by
  induction l generalizing a with
  | nil => rfl
  | cons x xs ih =>
    have hx : x.bind pr = none := h x (by simp)
    have hstep : tryParseStep pr f a x = a := by simp [tryParseStep, hx]
    simpa [hstep] using ih a (fun v hv => h v (by simp [hv]))

/-! ## C1: `update` copies non-inherited values and preserves the rest -/

/-- C1: for every `TableStyle` `self` and `other` and every property `p` in
`all_properties`, after `self.update(other)` the value of `p` on `self` is
the value from `other` when that value is not the inherited sentinel, and
is unchanged when the value from `other` is the inherited sentinel — a later cascade
level with an inherited value never overwrites an earlier non-inherited
value. -/
theorem TableStyle.update_cascade (self other : TableStyle) (p : String)
    (hp : p ∈ TableStyle.all_properties) :
    TableStyle.update self other p =
      if other p = PVal.inherit then self p else other p := by
  unfold TableStyle.update
  rw [if_pos hp]
  cases h : other p <;> simp

/-- Closed instance of C1 at a concrete style pair and property. -/
theorem TableStyle.update_cascade_witness :
    TableStyle.update TableStyle.initNone (fun _ => PVal.s "a") "width" = PVal.s "a" := by
  have h := TableStyle.update_cascade TableStyle.initNone (fun _ => PVal.s "a") "width"
    (by decide)
  simpa using h

/-! ## C2: `resolve_based_on` against a resolved parent is idempotent -/

/-- C2: for every `TableStyle` `self` and every fully resolved `parent`
(no property of `parent` is the inherited sentinel on `all_properties`),
resolving twice against `parent` equals resolving once, and after the call
no property in `all_properties` is the inherited sentinel. -/
theorem TableStyle.resolve_based_on_idempotent (self parent : TableStyle)
    (hpar : ∀ p ∈ TableStyle.all_properties, parent p ≠ PVal.inherit) :
    TableStyle.resolve_based_on (TableStyle.resolve_based_on self parent) parent
        = TableStyle.resolve_based_on self parent
    ∧ ∀ p ∈ TableStyle.all_properties,
        TableStyle.resolve_based_on self parent p ≠ PVal.inherit := by
  constructor
  · funext p
    unfold TableStyle.resolve_based_on
    by_cases hc : p ∈ TableStyle.all_properties
    · simp only [if_pos hc]
      cases h : self p <;> cases h2 : parent p <;> simp
    · simp only [if_neg hc]
  · intro p hp
    unfold TableStyle.resolve_based_on
    rw [if_pos hp]
    cases h : self p
    · simpa using hpar p hp
    all_goals simp

/-- Closed instance of C2 at a concrete style pair, with the hypothesis
discharged at a fully resolved parent. -/
theorem TableStyle.resolve_based_on_idempotent_witness :
    (TableStyle.resolve_based_on
        (TableStyle.resolve_based_on TableStyle.initNone (fun _ => PVal.s "b"))
        (fun _ => PVal.s "b")
      = TableStyle.resolve_based_on TableStyle.initNone (fun _ => PVal.s "b"))
    ∧ TableStyle.resolve_based_on TableStyle.initNone (fun _ => PVal.s "b") "width"
        ≠ PVal.inherit := by
  have h := TableStyle.resolve_based_on_idempotent TableStyle.initNone
    (fun _ => PVal.s "b") (by intro p hp; simp)
  exact ⟨h.1, h.2 "width" (by decide)⟩

/-! ## C4: the padding reader never stores the edge values it computes -/

/-- C4 (code bug): a padding container with an explicit left edge of 100
twentieths of a point should set `cell_padding_left` to the resolved width
`"5pt"`, but `read_padding` stores the inherited sentinel for all four
edges — the `locals()[x]` assignment in the source is discarded by
CPython. -/
theorem read_padding_discards_edges :
    read_padding [⟨[⟨some "100", some "dxa"⟩], [], [], []⟩]
      = ⟨PVal.inherit, PVal.inherit, PVal.inherit, PVal.inherit⟩
    ∧ _read_width ⟨some "100", some "dxa"⟩ = PVal.s "5pt" := by
  exact ⟨rfl, by decide⟩

/-! ## C5: dxa and pct width resolution -/

/-- C5: for every width node whose magnitude attribute parses to `v`, unit
type `dxa` resolves to `v / 20` formatted to three significant digits
suffixed `pt`, and unit type `pct` resolves to `v / 50` formatted the same
way suffixed `%`; in particular `w="5000"` with type `pct` resolves to
`"100%"`. -/
theorem read_width_dxa_pct_spec (s : String) (v : Int)
    (h : parsePyInt s = some v) :
    _read_width ⟨some s, some "dxa"⟩ = PVal.s (fmt3g v 20 ++ "pt")
    ∧ _read_width ⟨some s, some "pct"⟩ = PVal.s (fmt3g v 50 ++ "%")
    ∧ _read_width ⟨some "5000", some "pct"⟩ = PVal.s "100%" := by
  refine ⟨?_, ?_, by decide⟩
  · simp [_read_width, h]
  · simp [_read_width, h]

/-- Closed instance of C5 at the example from the spec, `w="5000"`,
`type="pct"`. -/
theorem read_width_dxa_pct_spec_witness :
    _read_width ⟨some "5000", some "dxa"⟩ = PVal.s (fmt3g 5000 20 ++ "pt")
    ∧ _read_width ⟨some "5000", some "pct"⟩ = PVal.s "100%" := by
  have h := read_width_dxa_pct_spec "5000" 5000 (by decide)
  exact ⟨h.1, h.2.2⟩

/-! ## C6: nil/auto/missing width resolution -/

/-- C6 as stated is false: a width node with a missing magnitude does not
always resolve to `"auto"` — the magnitude defaults to 0 and the unit type
still decides the format, so with `type="dxa"` the node resolves to
`"0pt"`. -/
theorem read_width_missing_magnitude_counterexample :
    _read_width ⟨none, some "dxa"⟩ = PVal.s "0pt"
    ∧ _read_width ⟨none, some "dxa"⟩ ≠ PVal.s "auto" := by
  decide

/-- C6 amended: unit type `nil` resolves to `"0"`; unit type `auto`, or a
missing unit-type attribute, resolves to `"auto"`; a missing magnitude is
treated as 0, so under types `dxa` and `pct` it resolves to `"0pt"` and
`"0%"`; a width node entirely absent leaves the destination inherited. -/
theorem read_width_nil_auto_spec (w : Option String) :
    _read_width ⟨w, some "nil"⟩ = PVal.s "0"
    ∧ _read_width ⟨w, some "auto"⟩ = PVal.s "auto"
    ∧ _read_width ⟨w, none⟩ = PVal.s "auto"
    ∧ _read_width ⟨none, some "dxa"⟩ = PVal.s "0pt"
    ∧ _read_width ⟨none, some "pct"⟩ = PVal.s "0%"
    ∧ read_width [] = PVal.inherit := by
  refine ⟨rfl, rfl, rfl, by decide, by decide, rfl⟩

/-- Closed instance of the amended C6 at a node with no attributes at
all. -/
theorem read_width_nil_auto_spec_witness :
    _read_width ⟨none, some "nil"⟩ = PVal.s "0" :=
  (read_width_nil_auto_spec none).1

/-! ## C7: justification to auto-margins -/

/-- C7: a justification value of `left` sets `margin_right` to `"auto"` and
leaves `margin_left` inherited; `right` sets `margin_left` to `"auto"` and
leaves `margin_right` inherited; `center` sets both; with no justification
child both margins stay inherited.  (The pair is `(margin_left,
margin_right)`.) -/
theorem read_justification_spec :
    read_justification ["left"] = (PVal.inherit, PVal.s "auto")
    ∧ read_justification ["right"] = (PVal.s "auto", PVal.inherit)
    ∧ read_justification ["center"] = (PVal.s "auto", PVal.s "auto")
    ∧ read_justification [] = (PVal.inherit, PVal.inherit) := by
  decide

/-! ## C8: malformed numeric and hex attributes fall back to defaults -/

/-- C8: the numeric and hex readers are total functions of the input (no
exception escapes); when every `w:val` fails to convert — the attribute is
absent (`int(None)` raises `TypeError`) or its text is non-numeric
(`ValueError`) — the band sizes stay at the concrete default 1, the look
flag stays at the concrete default 0, and `col_span` stays the inherited
sentinel, not zero.  Absent elements are the `[]` instances. -/
theorem readers_malformed_default_spec
    (colNodes rowNodes looks gss : List (Option String))
    (hc : ∀ v ∈ colNodes, v.bind parsePyInt = none)
    (hr : ∀ v ∈ rowNodes, v.bind parsePyInt = none)
    (hl : ∀ v ∈ looks, v.bind parsePyHex = none)
    (hg : ∀ v ∈ gss, v.bind parsePyInt = none) :
    read_band_size colNodes rowNodes = (1, 1)
    ∧ read_look looks = 0
    ∧ read_col_span gss = PVal.inherit := by
  refine ⟨?_, ?_, ?_⟩
  · unfold read_band_size readBandLoop
    rw [foldl_tryParseStep _ _ _ _ hc, foldl_tryParseStep _ _ _ _ hr]
  · exact foldl_tryParseStep _ _ _ _ hl
  · exact foldl_tryParseStep _ _ _ _ hg

/-- Closed instance of C8: an absent attribute, a non-numeric value, a
non-hex value and a float-syntax value all fall back to the documented
defaults. -/
theorem readers_malformed_default_spec_witness :
    read_band_size [none] [some "x"] = (1, 1)
    ∧ read_look [some "zz"] = 0
    ∧ read_col_span [some "1.5", none] = PVal.inherit := by
  exact readers_malformed_default_spec [none] [some "x"] [some "zz"] [some "1.5", none]
    (by decide) (by decide) (by decide) (by decide)

/-! ## C9: RowStyle construction -/

/-- C9: `RowStyle` built with no source node assigns the inherited sentinel
to each of its four declared properties; built with a source node it
assigns none of them — the populated branch of the constructor is `pass`,
so the record keeps no explicit value for any property. -/
theorem RowStyle.init_spec (n : XmlNode) (p : String)
    (hp : p ∈ RowStyle.all_properties) :
    (RowStyle.init none).attrs p = some PVal.inherit
    ∧ (RowStyle.init (some n)).attrs p = none := by
  exact ⟨by simp [RowStyle.init, hp], rfl⟩

/-- Closed instance of C9 at the `height` property. -/
theorem RowStyle.init_spec_witness :
    (RowStyle.init none).attrs "height" = some PVal.inherit
    ∧ (RowStyle.init (some ⟨0⟩)).attrs "height" = none :=
  RowStyle.init_spec ⟨0⟩ "height" (by decide)

/-! ## C3: assembly structure -/

/-- The row children of a produced `TABLE` container. -/
def tableRows : HtmlNode → List HtmlNode
  | HtmlNode.table rs => rs
  | _ => []

/-- The children of a produced container node. -/
def nodeChildren : HtmlNode → List HtmlNode
  | HtmlNode.table rs => rs
  | HtmlNode.tr cs => cs
  | HtmlNode.td cs => cs
  | HtmlNode.block _ => []

/-- A fold that appends one element per input is a map. -/
theorem foldl_append_singleton_eq_map {α β : Type} (f : α → β) :
    ∀ (l : List α) (acc : List β),
      l.foldl (fun a x => a ++ [f x]) acc = acc ++ l.map f := by
  intro l
  induction l with
  | nil => intro acc; simp
  | cons x xs ih => intro acc; simp [ih]

/-- The append-built table equals its nested-map normal form: one `TR` per
source row in document order, one `TD` per source cell in document order,
holding the converted blocks of that cell in document order. -/
theorem makeTable_eq (rmap : Nat → Nat) (tbl : WTbl) :
    makeTable rmap tbl = HtmlNode.table (tbl.rows.map (fun row =>
      HtmlNode.tr (row.map (fun tc =>
        HtmlNode.td (tc.map (fun p => HtmlNode.block (rmap p))))))) := by
  unfold makeTable
  simp only [foldl_append_singleton_eq_map, List.nil_append]

/-- Inserting below the length splits the list at the insertion point. -/
theorem insertIdx_eq_take_cons_drop {α : Type} (x : α) :
    ∀ (n : Nat) (l : List α), n ≤ l.length →
      l.insertIdx n x = l.take n ++ x :: l.drop n := by
  intro n
  induction n with
  | zero => intro l h; simp [List.insertIdx_zero]
  | succ n ih =>
    intro l h
    cases l with
    | nil => simp at h
    | cons a as =>
      simp only [List.insertIdx_succ_cons, List.take_succ_cons, List.drop_succ_cons,
        List.cons_append]
      rw [ih as (by simpa using h)]

/-- Removing moved blocks does not change the number of `TABLE` nodes. -/
theorem countP_isTable_filter_keep (rmap : Nat → Nat) (tbl : WTbl) (l : List HtmlNode) :
    (l.filter (keepAfterMove rmap tbl)).countP isTable = l.countP isTable := by
  rw [List.countP_filter]
  have h : (fun a => isTable a && keepAfterMove rmap tbl a) = isTable := by
    funext a
    cases a <;> simp [isTable, keepAfterMove]
  rw [h]

/-- C3: a registered table with a non-empty contributed block list makes
`apply_markup` insert exactly one `TABLE` element, at the index of the
first contributed block of the table in the host parent; the table carries one
`TR` per `w:tr` child in document order, each with one `TD` per `w:tc`
child in document order holding the converted blocks of that cell (so `R` row
containers with `C_i` cell containers in row `i`); a registered table with
an empty contributed block list produces no output node at all. -/
theorem apply_markup_table_spec (rmap : Nat → Nat) (children : List HtmlNode)
    (tbl : WTbl) (b : Nat) (bs : List Nat)
    (hb : HtmlNode.block (rmap b) ∈ children) :
    apply_markup_step rmap children tbl [] = children
    ∧ children.findIdx (isBlockOf (rmap b)) < children.length
    ∧ apply_markup_step rmap children tbl (b :: bs)
        = (children.take (children.findIdx (isBlockOf (rmap b)))).filter
            (keepAfterMove rmap tbl)
          ++ makeTable rmap tbl
          :: (children.drop (children.findIdx (isBlockOf (rmap b)))).filter
              (keepAfterMove rmap tbl)
    ∧ (apply_markup_step rmap children tbl (b :: bs)).countP isTable
        = children.countP isTable + 1
    ∧ makeTable rmap tbl = HtmlNode.table (tbl.rows.map (fun row =>
        HtmlNode.tr (row.map (fun tc =>
          HtmlNode.td (tc.map (fun p => HtmlNode.block (rmap p)))))))
    ∧ (tableRows (makeTable rmap tbl)).length = tbl.rows.length
    ∧ (tableRows (makeTable rmap tbl)).map (fun r => (nodeChildren r).length)
        = tbl.rows.map List.length := by
  have hstep : apply_markup_step rmap children tbl (b :: bs)
      = (children.insertIdx (children.findIdx (isBlockOf (rmap b)))
          (makeTable rmap tbl)).filter (keepAfterMove rmap tbl) := rfl
  have hsplit : children.insertIdx (children.findIdx (isBlockOf (rmap b)))
        (makeTable rmap tbl)
      = children.take (children.findIdx (isBlockOf (rmap b)))
        ++ makeTable rmap tbl
        :: children.drop (children.findIdx (isBlockOf (rmap b))) :=
    insertIdx_eq_take_cons_drop _ _ _ (List.findIdx_le_length _)
  have hkeep : keepAfterMove rmap tbl (makeTable rmap tbl) = true := by
    rw [makeTable_eq]
    rfl
  refine ⟨rfl, ?_, ?_, ?_, makeTable_eq rmap tbl, ?_, ?_⟩
  · exact List.findIdx_lt_length_of_exists ⟨HtmlNode.block (rmap b), hb, by simp [isBlockOf]⟩
  · rw [hstep, hsplit, List.filter_append, List.filter_cons, hkeep]
    simp
  · rw [hstep, countP_isTable_filter_keep, hsplit, List.countP_append, List.countP_cons]
    have hiT : (if isTable (makeTable rmap tbl) = true then 1 else 0) = 1 := by
      rw [makeTable_eq]
      rfl
    rw [hiT]
    conv_rhs => rw [← List.take_append_drop (children.findIdx (isBlockOf (rmap b))) children,
      List.countP_append]
    omega
  · rw [makeTable_eq]
    simp [tableRows]
  · rw [makeTable_eq]
    simp [tableRows, nodeChildren]

/-- Closed instance of C3: a one-row, two-cell table registered with two
contributed blocks, and the empty-block skip. -/
theorem apply_markup_table_spec_witness :
    apply_markup_step (fun n => n) [HtmlNode.block 5, HtmlNode.block 9]
        ⟨[[[5], [9]]]⟩ [] = [HtmlNode.block 5, HtmlNode.block 9]
    ∧ (apply_markup_step (fun n => n) [HtmlNode.block 5, HtmlNode.block 9]
        ⟨[[[5], [9]]]⟩ (5 :: [9])).countP isTable
      = ([HtmlNode.block 5, HtmlNode.block 9] : List HtmlNode).countP isTable + 1 := by
  have h := apply_markup_table_spec (fun n => n) [HtmlNode.block 5, HtmlNode.block 9]
    ⟨[[[5], [9]]]⟩ 5 [9] (List.Mem.head _)
  exact ⟨h.1, h.2.2.2.1⟩

/-! ## C10: registration state -/

/-- Replacing the value stored at a key leaves the key sequence alone. -/
theorem keys_map_replace (tbl : Nat) (l : List (Nat × List Nat)) :
    (l.map (fun kv => if kv.1 = tbl then (tbl, ([] : List Nat)) else kv)).map Prod.fst
      = l.map Prod.fst := by
  induction l with
  | nil => rfl
  | cons x xs ih =>
    simp only [List.map_cons, ih]
    by_cases h : x.1 = tbl
    · rw [if_pos h]
      simp [h]
    · rw [if_neg h]

/-- A key matches somewhere in the association list iff it is among the
keys. -/
theorem any_key_eq_mem_keys (tbl : Nat) (l : List (Nat × List Nat)) :
    l.any (fun kv => kv.1 == tbl) = true ↔ tbl ∈ l.map Prod.fst := by
  simp [List.any_eq_true, List.mem_map, beq_iff_eq]

/-- After replacing the value at a present key, lookup finds the fresh
value. -/
theorem find?_map_replace_self (tbl : Nat) (l : List (Nat × List Nat))
    (h : l.any (fun kv => kv.1 == tbl) = true) :
    (l.map (fun kv => if kv.1 = tbl then (tbl, ([] : List Nat)) else kv)).find?
        (fun kv => kv.1 == tbl)
      = some (tbl, []) := by
  induction l with
  | nil => simp at h
  | cons x xs ih =>
    by_cases hx : x.1 = tbl
    · simp only [List.map_cons, if_pos hx]
      rw [List.find?_cons_of_pos _ (by simp)]
    · have h2 : xs.any (fun kv => kv.1 == tbl) = true := by
        simpa [List.any_cons, hx] using h
      simp only [List.map_cons, if_neg hx]
      rw [List.find?_cons_of_neg _ (by simp [hx])]
      exact ih h2

/-- Replacing the value at one key does not disturb lookups of another. -/
theorem find?_map_replace_other (k tbl : Nat) (hne : k ≠ tbl)
    (l : List (Nat × List Nat)) :
    (l.map (fun kv => if kv.1 = tbl then (tbl, ([] : List Nat)) else kv)).find?
        (fun kv => kv.1 == k)
      = l.find? (fun kv => kv.1 == k) := by
  induction l with
  | nil => rfl
  | cons x xs ih =>
    by_cases hx : x.1 = tbl
    · simp only [List.map_cons, if_pos hx]
      rw [List.find?_cons_of_neg _ (by simp [Ne.symm hne]),
        List.find?_cons_of_neg _ (by simp [hx, Ne.symm hne])]
      exact ih
    · simp only [List.map_cons, if_neg hx]
      by_cases hj : x.1 = k
      · rw [List.find?_cons_of_pos _ (by simp [hj]), List.find?_cons_of_pos _ (by simp [hj])]
      · rw [List.find?_cons_of_neg _ (by simp [hj]), List.find?_cons_of_neg _ (by simp [hj])]
        exact ih

/-- A lookup that fails on a prefix continues in the suffix. -/
theorem find?_append_of_none {α : Type} (p : α → Bool) (l l2 : List α)
    (h : ∀ a ∈ l, p a = false) :
    (l ++ l2).find? p = l2.find? p := by
  induction l with
  | nil => rfl
  | cons x xs ih =>
    simp only [List.cons_append]
    rw [List.find?_cons_of_neg _ (by simp [h x (by simp)])]
    exact ih (fun a ha => h a (by simp [ha]))

/-- Appending a fresh key does not disturb lookups of a different key. -/
theorem find?_append_single (k tbl : Nat) (hne : k ≠ tbl)
    (l : List (Nat × List Nat)) :
    (l ++ [(tbl, ([] : List Nat))]).find? (fun kv => kv.1 == k)
      = l.find? (fun kv => kv.1 == k) := by
  induction l with
  | nil =>
    simp only [List.nil_append]
    rw [List.find?_cons_of_neg _ (by simp [Ne.symm hne])]
  | cons x xs ih =>
    simp only [List.cons_append]
    by_cases hj : x.1 = k
    · rw [List.find?_cons_of_pos _ (by simp [hj]), List.find?_cons_of_pos _ (by simp [hj])]
    · rw [List.find?_cons_of_neg _ (by simp [hj]), List.find?_cons_of_neg _ (by simp [hj])]
      exact ih

/-- Appending to the value stored at a key rewrites exactly that lookup. -/
theorem find?_map_append_self (k p : Nat) (l : List (Nat × List Nat)) :
    (l.map (fun kv => if kv.1 = k then (kv.1, kv.2 ++ [p]) else kv)).find?
        (fun kv => kv.1 == k)
      = (l.find? (fun kv => kv.1 == k)).map (fun kv => (kv.1, kv.2 ++ [p])) := by
  induction l with
  | nil => rfl
  | cons x xs ih =>
    by_cases hx : x.1 = k
    · simp only [List.map_cons, if_pos hx]
      rw [List.find?_cons_of_pos _ (by simp [hx]), List.find?_cons_of_pos _ (by simp [hx])]
      rfl
    · simp only [List.map_cons, if_neg hx]
      rw [List.find?_cons_of_neg _ (by simp [hx]), List.find?_cons_of_neg _ (by simp [hx])]
      exact ih

/-- Appending to the value stored at one key does not disturb lookups of
another key. -/
theorem find?_map_append_other (k j p : Nat) (hne : j ≠ k)
    (l : List (Nat × List Nat)) :
    (l.map (fun kv => if kv.1 = k then (kv.1, kv.2 ++ [p]) else kv)).find?
        (fun kv => kv.1 == j)
      = l.find? (fun kv => kv.1 == j) := by
  induction l with
  | nil => rfl
  | cons x xs ih =>
    by_cases hx : x.1 = k
    · simp only [List.map_cons, if_pos hx]
      rw [List.find?_cons_of_neg _ (by simp [hx, Ne.symm hne]),
        List.find?_cons_of_neg _ (by simp [hx, Ne.symm hne])]
      exact ih
    · simp only [List.map_cons, if_neg hx]
      by_cases hj : x.1 = j
      · rw [List.find?_cons_of_pos _ (by simp [hj]), List.find?_cons_of_pos _ (by simp [hj])]
      · rw [List.find?_cons_of_neg _ (by simp [hj]), List.find?_cons_of_neg _ (by simp [hj])]
        exact ih

/-- Appending to the value stored at a key leaves the key sequence alone. -/
theorem keys_map_append (k p : Nat) (l : List (Nat × List Nat)) :
    (l.map (fun kv => if kv.1 = k then (kv.1, kv.2 ++ [p]) else kv)).map Prod.fst
      = l.map Prod.fst := by
  induction l with
  | nil => rfl
  | cons x xs ih =>
    simp only [List.map_cons, ih]
    by_cases h : x.1 = k
    · rw [if_pos h]
    · rw [if_neg h]

/-- C10: `add(p)` appends `p` to the block list of the most recently
registered table (the table `current` points at) and touches nothing else;
`register` on an already-registered table node resets the block list of
that node to a fresh empty list while the node keeps its original position in
the registration-order key sequence used by assembly, and the node becomes
current. -/
theorem tables_register_add_spec (st : Tables) (tbl k j p : Nat)
    (hcur : st.current = some k) :
    (st.register tbl).current = some tbl
    ∧ (st.register tbl).keys
        = (if tbl ∈ st.keys then st.keys else st.keys ++ [tbl])
    ∧ (st.register tbl).blocksOf tbl = some []
    ∧ (k ≠ tbl → (st.register tbl).blocksOf k = st.blocksOf k)
    ∧ (st.add p).blocksOf k = (st.blocksOf k).map (fun bl => bl ++ [p])
    ∧ (j ≠ k → (st.add p).blocksOf j = st.blocksOf j)
    ∧ (st.add p).keys = st.keys := by
  have haddT : (st.add p).tables
      = st.tables.map (fun kv => if kv.1 = k then (kv.1, kv.2 ++ [p]) else kv) := by
    unfold Tables.add
    rw [hcur]
  have haddK : (st.add p).keys
      = (st.tables.map (fun kv => if kv.1 = k then (kv.1, kv.2 ++ [p]) else kv)).map
          Prod.fst := by
    simp only [Tables.keys, haddT]
  refine ⟨rfl, ?_, ?_, ?_, ?_, ?_, ?_⟩
  · cases hany : st.tables.any (fun kv => kv.1 == tbl) with
    | true =>
      have hmem : tbl ∈ st.tables.map Prod.fst := (any_key_eq_mem_keys _ _).mp hany
      have hregT : (st.register tbl).tables
          = st.tables.map (fun kv => if kv.1 = tbl then (tbl, ([] : List Nat)) else kv) := by
        unfold Tables.register
        rw [hany]
        rfl
      simp only [Tables.keys, hregT]
      rw [keys_map_replace, if_pos hmem]
    | false =>
      have hmem : tbl ∉ st.tables.map Prod.fst := fun hm => by
        simp [(any_key_eq_mem_keys _ _).mpr hm] at hany
      have hregT : (st.register tbl).tables = st.tables ++ [(tbl, [])] := by
        unfold Tables.register
        rw [hany]
        rfl
      simp only [Tables.keys, hregT]
      rw [if_neg hmem, List.map_append]
      rfl
  · cases hany : st.tables.any (fun kv => kv.1 == tbl) with
    | true =>
      have hregT : (st.register tbl).tables
          = st.tables.map (fun kv => if kv.1 = tbl then (tbl, ([] : List Nat)) else kv) := by
        unfold Tables.register
        rw [hany]
        rfl
      simp only [Tables.blocksOf, hregT]
      rw [find?_map_replace_self tbl st.tables hany]
      rfl
    | false =>
      have hall : ∀ kv ∈ st.tables, (kv.1 == tbl) = false := by
        intro kv hkv
        simpa using (List.any_eq_false.mp hany) kv hkv
      have hregT : (st.register tbl).tables = st.tables ++ [(tbl, [])] := by
        unfold Tables.register
        rw [hany]
        rfl
      simp only [Tables.blocksOf, hregT]
      rw [find?_append_of_none _ _ _ hall, List.find?_cons_of_pos _ (by simp)]
      rfl
  · intro hne
    cases hany : st.tables.any (fun kv => kv.1 == tbl) with
    | true =>
      have hregT : (st.register tbl).tables
          = st.tables.map (fun kv => if kv.1 = tbl then (tbl, ([] : List Nat)) else kv) := by
        unfold Tables.register
        rw [hany]
        rfl
      simp only [Tables.blocksOf, hregT]
      rw [find?_map_replace_other k tbl hne st.tables]
    | false =>
      have hregT : (st.register tbl).tables = st.tables ++ [(tbl, [])] := by
        unfold Tables.register
        rw [hany]
        rfl
      simp only [Tables.blocksOf, hregT]
      rw [find?_append_single k tbl hne st.tables]
  · simp only [Tables.blocksOf, haddT]
    rw [find?_map_append_self k p st.tables]
    cases st.tables.find? (fun kv => kv.1 == k) <;> rfl
  · intro hne
    simp only [Tables.blocksOf, haddT]
    rw [find?_map_append_other k j p hne st.tables]
  · rw [haddK, keys_map_append k p st.tables]
    rfl

/-- Closed instance of C10: after registering table 3 and adding block 1,
adding block 2 extends the same list, and registering a fresh table 7
appends its key. -/
theorem tables_register_add_spec_witness :
    ((Tables.add (Tables.register Tables.init 3) 1).register 7).current = some 7
    ∧ ((Tables.add (Tables.add (Tables.register Tables.init 3) 1) 2).blocksOf 3
        = some [1, 2]) := by
  have h := tables_register_add_spec (Tables.add (Tables.register Tables.init 3) 1)
    7 3 5 2 rfl
  refine ⟨h.1, ?_⟩
  rw [h.2.2.2.2.1]
  rfl
